import Mathlib

/-!
# NeoFlex CSV → PostgreSQL bulk loader — verification development

Shallow embedding of the load pipeline in `main.py` and of the run-logging
behaviour of the companion export/import script `load_download.py`.

Modelling conventions:
* A CSV cell is `Option String`: `none` models a pandas missing value
  (`NaN`, produced by `read_csv` for empty fields), `some s` models the
  textual content of the cell.  Python's `str(x)` / `.astype(str)` on a
  missing value yields the literal string `"nan"`, which `cellStr` mirrors.
* Python `str.split(sep)` with a one-character separator is `csplit1`;
  `str.strip()` is `listStrip` (ASCII whitespace); `s[:n]` is `List.take n`
  on the code points, exactly Python's code-point slicing.
* `datetime.strptime` with formats `%d.%m.%Y` / `%d-%m-%Y` is `parseDMY`:
  day and month are 1–2 digit fields with value ranges enforced by
  CPython's `_strptime` regexes, the year is exactly four digits, and the
  resulting triple must be a valid calendar date (Gregorian leap rule).
  `strftime("%Y-%m-%d")` is `isoFormat` (zero-padded fields).
-/

abbrev Cell := Option String

abbrev Row := List Cell

/-- One decoded dataframe: a header row and the data rows, columns aligned
positionally with the header. -/
structure Table where
  header : List String
  rows : List Row
deriving DecidableEq, Repr

/-- Errors surfaced by the load pipeline: the for/else `UnicodeDecodeError`
raised when no encoding candidate decodes the file, the pandas `KeyError`
from `dropna` on an absent subset column, and the `ValueError` naming the
columns absent from the dataframe (`отсутствуют колонки`). -/
inductive LoadErr where
  | unreadable
  | keyError
  | missingColumns (cols : List String)
deriving DecidableEq, Repr

/-- Python `str.split(c)` for a one-character separator, on code points.
`csplit1 c [] = [[]]`, matching Python's `"".split(c) == [""]`. -/
def csplit1 (sep : Char) : List Char → List (List Char)
  | [] => [[]]
  | c :: rest =>
    match csplit1 sep rest with
    | r :: rs => if c = sep then [] :: r :: rs else (c :: r) :: rs
    | [] => if c = sep then [[], []] else [[c]]

/-- Python `str.strip()` (whitespace from both ends), on code points. -/
def listStrip (l : List Char) : List Char :=
  ((l.dropWhile Char.isWhitespace).reverse.dropWhile Char.isWhitespace).reverse

/-- Python `str.lower()` on code points (the inputs at hand are ASCII). -/
def pylower (s : String) : String :=
  String.mk (s.data.map Char.toLower)

/-- `snake_case` from main.py: strip, spaces and hyphens to underscores,
lowercase.  The three Python passes commute char-wise, so they are fused
into one map over the stripped code points. -/
def snake_case (s : String) : String :=
  String.mk ((listStrip s.data).map (fun c => if c = ' ' ∨ c = '-' then '_' else c.toLower))

/-- Digits of a decimal numeral to its value (`int(s)` on an all-digit string). -/
def digitsToNat (l : List Char) : Nat :=
  l.foldl (fun n c => 10 * n + (c.toNat - 48)) 0

/-- Gregorian leap-year rule, as used by `datetime.date` validity. -/
def isLeap (y : Nat) : Bool :=
  y % 4 = 0 && (y % 100 ≠ 0 || y % 400 = 0)

/-- Days in a month, as used by `datetime.date` validity. -/
def daysInMonth (y m : Nat) : Nat :=
  if m = 2 then (if isLeap y then 29 else 28)
  else if m = 4 ∨ m = 6 ∨ m = 9 ∨ m = 11 then 30
  else 31

/-- `datetime.strptime(value, "%d<sep>%m<sep>%Y")`: split on the separator
into exactly three fields; day and month are 1–2 digits, year exactly 4
digits (CPython's `_strptime` regexes), the values forming a valid
`datetime.date` (year ≥ 1, day within the month).  Returns `(day, month,
year)` on success. -/
def parseDMY (s : String) (sep : Char) : Option (Nat × Nat × Nat) :=
  match csplit1 sep s.data with
  | [ds, ms, ys] =>
    if ds ≠ [] ∧ ds.length ≤ 2 ∧ ds.all Char.isDigit
        ∧ ms ≠ [] ∧ ms.length ≤ 2 ∧ ms.all Char.isDigit
        ∧ ys.length = 4 ∧ ys.all Char.isDigit then
      let d := digitsToNat ds
      let m := digitsToNat ms
      let y := digitsToNat ys
      if 1 ≤ d ∧ 1 ≤ m ∧ m ≤ 12 ∧ 1 ≤ y ∧ d ≤ daysInMonth y m then
        some (d, m, y)
      else none
    else none
  | _ => none

/-- A decimal numeral zero-padded on the left to width `w`. -/
def natPad (n w : Nat) : List Char :=
  let ds := Nat.toDigits 10 n
  List.replicate (w - ds.length) '0' ++ ds

/-- `strftime("%Y-%m-%d")` applied to a parsed `(day, month, year)` triple. -/
def isoFormat (dmy : Nat × Nat × Nat) : String :=
  String.mk (natPad dmy.2.2 4 ++ '-' :: (natPad dmy.2.1 2 ++ '-' :: natPad dmy.1 2))

/-- `convert_date` from main.py: empty or textual "nan"/"none"
(case-insensitively) maps to `None`; a recognised format is parsed with
`strptime` and re-rendered as ISO year-month-day, a `ValueError` (parse
failure) falling through to `None`; format `YYYY-MM-DD` passes the value
through; any other format returns `None`. -/
def convert_date (value : String) (fmt : String) : Option String :=
  if value = "" ∨ pylower value ∈ ["nan", "none"] then none
  else if fmt = "DD.MM.YYYY" then (parseDMY value '.').map isoFormat
  else if fmt = "DD-MM-YYYY" then (parseDMY value '-').map isoFormat
  else if fmt = "YYYY-MM-DD" then some value
  else none

/-- `str(x)` / `.astype(str)` on a cell: a pandas missing value renders as
the literal string `"nan"`. -/
def cellStr (c : Cell) : String :=
  match c with
  | none => "nan"
  | some s => s

/-- `date_columns` from main.py: per table, the declared date columns with
their source formats. -/
def dateColumns (table : String) : Option (List (String × String)) :=
  if table = "ft_balance_f" then some [("on_date", "DD.MM.YYYY")]
  else if table = "ft_posting_f" then some [("oper_date", "DD-MM-YYYY")]
  else none

/-- `varchar_limits` from main.py: per table, the declared maximum lengths. -/
def varcharLimits (table : String) : Option (List (String × Nat)) :=
  if table = "md_currency_d" then some [("currency_code", 3), ("code_iso_char", 3)]
  else none

/-- `insert_queries` from main.py: the SQL write template of each table
(upsert `ON CONFLICT ... DO UPDATE` for the keyed tables, plain `INSERT`
for `ft_posting_f`). -/
def insertQuery (table : String) : String :=
  if table = "ft_balance_f" then
    "INSERT INTO ds.ft_balance_f (on_date, account_rk, currency_rk, balance_out) " ++
    "VALUES (%s,%s,%s,%s) " ++
    "ON CONFLICT (on_date, account_rk) DO UPDATE SET " ++
    "currency_rk = EXCLUDED.currency_rk, balance_out = EXCLUDED.balance_out;"
  else if table = "md_account_d" then
    "INSERT INTO ds.md_account_d (data_actual_date, data_actual_end_date, account_rk, " ++
    "account_number, char_type, currency_rk, currency_code) VALUES (%s,%s,%s,%s,%s,%s,%s) " ++
    "ON CONFLICT (data_actual_date, account_rk) DO UPDATE SET " ++
    "data_actual_end_date = EXCLUDED.data_actual_end_date, account_number = EXCLUDED.account_number, " ++
    "char_type = EXCLUDED.char_type, currency_rk = EXCLUDED.currency_rk, currency_code = EXCLUDED.currency_code;"
  else if table = "md_currency_d" then
    "INSERT INTO ds.md_currency_d (currency_rk, data_actual_date, data_actual_end_date, currency_code, code_iso_char) " ++
    "VALUES (%s,%s,%s,%s,%s) " ++
    "ON CONFLICT (currency_rk, data_actual_date) DO UPDATE SET " ++
    "data_actual_end_date = EXCLUDED.data_actual_end_date, currency_code = EXCLUDED.currency_code, code_iso_char = EXCLUDED.code_iso_char;"
  else if table = "md_exchange_rate_d" then
    "INSERT INTO ds.md_exchange_rate_d (data_actual_date, data_actual_end_date, currency_rk, reduced_cource, code_iso_num) " ++
    "VALUES (%s,%s,%s,%s,%s) " ++
    "ON CONFLICT (data_actual_date, currency_rk) DO UPDATE SET " ++
    "data_actual_end_date = EXCLUDED.data_actual_end_date, reduced_cource = EXCLUDED.reduced_cource, code_iso_num = EXCLUDED.code_iso_num;"
  else if table = "md_ledger_account_s" then
    "INSERT INTO ds.md_ledger_account_s (chapter, chapter_name, section_number, section_name, subsection_name, " ++
    "ledger1_account, ledger1_account_name, ledger_account, ledger_account_name, characteristic, start_date, end_date) " ++
    "VALUES (%s,%s,%s,%s,%s,%s,%s,%s,%s,%s,%s,%s) " ++
    "ON CONFLICT (ledger_account, start_date) DO UPDATE SET " ++
    "chapter = EXCLUDED.chapter, chapter_name = EXCLUDED.chapter_name, section_number = EXCLUDED.section_number, " ++
    "section_name = EXCLUDED.section_name, subsection_name = EXCLUDED.subsection_name, ledger1_account = EXCLUDED.ledger1_account, " ++
    "ledger1_account_name = EXCLUDED.ledger1_account_name, ledger_account_name = EXCLUDED.ledger_account_name, " ++
    "characteristic = EXCLUDED.characteristic, end_date = EXCLUDED.end_date;"
  else
    "INSERT INTO ds.ft_posting_f (oper_date, credit_account_rk, debet_account_rk, credit_amount, debet_amount) " ++
    "VALUES (%s,%s,%s,%s,%s);"

/-- The configured table order of `csv_files` in main.py. -/
def tableNames : List String :=
  ["ft_balance_f", "ft_posting_f", "md_account_d", "md_currency_d",
   "md_exchange_rate_d", "md_ledger_account_s"]

/-- `insert_queries[table].split("(")[1].split(")")[0].split(",")` with
`snake_case(c.strip())` applied to each piece: the column list of the write
template, in parameter order. -/
def extractCols (q : String) : List String :=
  let afterParen := (csplit1 '(' q.data).getD 1 []
  let inner := ((csplit1 ')' afterParen).headD [])
  (csplit1 ',' inner).map (fun c => snake_case (String.mk c))

/-- `df.duplicated(keep=False)` + `df[~dup_mask]`: keep exactly the rows
whose full tuple occurs exactly once in the frame — every member of a
duplicate group is removed, no representative survives. -/
def dedupRows (rows : List Row) : List Row :=
  rows.filter (fun r => rows.count r == 1)

/-- `dup_mask.sum()`: the number of rows marked as members of some
duplicate group (the count printed by the `[WARN]` line). -/
def dedupDroppedCount (rows : List Row) : Nat :=
  (rows.filter (fun r => !(rows.count r == 1))).length

/-- The cell of row `r` under the column named `col`, reading header and
row positionally (first occurrence of the label, as `df[col]` reads it). -/
def getCell : List String → Row → String → Option Cell
  | h :: hs, c :: cs, col => if h = col then some c else getCell hs cs col
  | _, _, _ => none

/-- Rewrite every position of a row whose header label is `col` with `f`
(`df[col] = df[col].apply(f)` semantics, positionally). -/
def transformRow (col : String) (f : Cell → Cell) : List String → Row → Row
  | h :: hs, c :: cs => (if h = col then f c else c) :: transformRow col f hs cs
  | _, cs => cs

/-- Column assignment over all rows of a frame. -/
def mapColRows (hdr : List String) (rows : List Row) (col : String) (f : Cell → Cell) : List Row :=
  rows.map (transformRow col f hdr)

/-- The date-conversion loop of `prepare_dataframe`: for each declared
date column present in the header, apply
`lambda x: convert_date(str(x), fmt)` to the column. -/
def dateStep (dc : List (String × String)) (hdr : List String) (rows : List Row) : List Row :=
  dc.foldl
    (fun rs p =>
      if hdr.contains p.1 then mapColRows hdr rs p.1 (fun c => convert_date (cellStr c) p.2)
      else rs)
    rows

/-- The `dropna(subset=...)` keep-predicate: every declared date column
holds a non-missing value in the row. -/
def dropnaPred (dc : List (String × String)) (hdr : List String) (r : Row) : Bool :=
  dc.all (fun p => ((getCell hdr r p.1).getD none).isSome)

/-- One VARCHAR-limited cell:
`astype(str).str.strip().str[:lim].replace(\x7b"": None\x7d)` — cast to
string (missing → "nan"), strip, truncate to `lim` code points, and map a
resulting empty string to missing. -/
def varcharClean (lim : Nat) (c : Cell) : Cell :=
  let s := (listStrip (cellStr c).data).take lim
  if s.isEmpty then none else some (String.mk s)

/-- The VARCHAR-limit loop of `prepare_dataframe`: for each declared
limited column present in the header, clean the column. -/
def varcharStep (table : String) (hdr : List String) (rows : List Row) : List Row :=
  match varcharLimits table with
  | none => rows
  | some vl =>
    vl.foldl
      (fun rs p => if hdr.contains p.1 then mapColRows hdr rs p.1 (varcharClean p.2) else rs)
      rows

/-- Lines 167–184 of `prepare_dataframe` (after the encoding loop): header
normalisation, duplicate removal, date conversion with `dropna` over all
declared date columns (a declared column absent from the frame raises
pandas `KeyError`), then VARCHAR-limit enforcement. -/
def preparePipeline (table : String) (t : Table) : Except LoadErr Table :=
  let hdr := t.header.map snake_case
  let rows0 := dedupRows t.rows
  match dateColumns table with
  | none => .ok ⟨hdr, varcharStep table hdr rows0⟩
  | some dc =>
    let rows1 := dateStep dc hdr rows0
    if dc.all (fun p => hdr.contains p.1) then
      .ok ⟨hdr, varcharStep table hdr (rows1.filter (dropnaPred dc hdr))⟩
    else .error .keyError

/-- The fixed candidate encodings tried by `prepare_dataframe`. -/
def encodingCandidates : List String := ["utf-8", "utf-8-sig", "cp1251", "latin-1"]

/-- The encoding for-loop of `prepare_dataframe`: `reader enc` is
`pd.read_csv(path, delimiter=";", encoding=enc)`, returning `some` table
when the whole file decodes under `enc` and `none` on a
`UnicodeDecodeError`; the for/else raises the unreadable-file error when
every candidate fails. -/
def resolveEncoding (reader : String → Option Table) : List String → Except LoadErr Table
  | [] => .error .unreadable
  | e :: rest =>
    match reader e with
    | some t => .ok t
    | none => resolveEncoding reader rest

/-- `prepare_dataframe` from main.py: encoding resolution followed by the
sanitising pipeline. -/
def prepare_dataframe (table : String) (reader : String → Option Table) : Except LoadErr Table :=
  match resolveEncoding reader encodingCandidates with
  | .error e => .error e
  | .ok t => preparePipeline table t

/-- `missing = [c for c in cols_order if c not in df.columns]` and, when
nothing is missing, the reindexed frame `df[cols_order]` (with
`.where(pd.notnull(df), None)` a no-op on `Option`-valued cells). -/
def reconcile (cols : List String) (t : Table) : Except LoadErr Table :=
  let missing := cols.filter (fun c => !(t.header.contains c))
  if missing.isEmpty then
    .ok ⟨cols, t.rows.map (fun r => cols.map (fun c => (getCell t.header r c).getD none))⟩
  else .error (.missingColumns missing)

/-- A SQL statement issued against the destination store by `import_table`. -/
inductive DbOp where
  | truncate
  | insertBatch (table : String) (rows : List Row)
deriving DecidableEq, Repr

/-- `import_table` from main.py: returns the number of loaded rows and the
sequence of destination-store statements it issues.  An absent file or an
empty cleaned frame returns 0 with no statements; otherwise the column
order is derived from the write template, the frame reconciled, and (for
`ft_posting_f` only) a `TRUNCATE` precedes the batch insert. -/
def importTable (table : String) (fileExists : Bool) (reader : String → Option Table) :
    Except LoadErr (Nat × List DbOp) :=
  if fileExists then
    match prepare_dataframe table reader with
    | .error e => .error e
    | .ok df =>
      if df.rows.isEmpty then .ok (0, [])
      else
        match reconcile (extractCols (insertQuery table)) df with
        | .error e => .error e
        | .ok out =>
          .ok (out.rows.length,
            (if table = "ft_posting_f" then [DbOp.truncate] else []) ++
              [DbOp.insertBatch table out.rows])
  else .ok (0, [])

/-- Replay a statement sequence against the `ds.ft_posting_f` contents
(the only table the pipeline ever truncates). -/
def dbApply (ops : List DbOp) (posting : List Row) : List Row :=
  ops.foldl
    (fun st op =>
      match op with
      | .truncate => []
      | .insertBatch t rows => if t = "ft_posting_f" then st ++ rows else st)
    posting

/-- A write against the `logs.etl_runs` run-history table: the creating
`INSERT` (with its status literal) or the finishing `UPDATE` (status,
rows-loaded — `none` models SQL NULL through `COALESCE` — and note). -/
inductive LogEvent where
  | start (status : String)
  | finish (status : String) (rows : Option Nat) (note : Option String)
deriving DecidableEq, Repr

/-- The run-history writes of one invocation, plus the exception it
re-raises to its caller, if any. -/
structure RunLog where
  events : List LogEvent
  raised : Option String
deriving DecidableEq, Repr

/-- The per-table loop of main.py's `__main__` block: fold over the
outcome of `import_table` for each configured table (`.ok n` = n rows
loaded, `.error m` = the exception's message).  Returns the accumulated
total, the first error if any, and how many tables were attempted. -/
def orchLoop : List (Except String Nat) → Nat → Nat × Option String × Nat
  | [], total => (total, none, 0)
  | Except.ok n :: rest, total =>
    let r := orchLoop rest (total + n)
    (r.1, r.2.1, r.2.2 + 1)
  | Except.error m :: _, total => (total, some m, 1)

/-- main.py's `__main__` block as a run-record trace: `log_start` inserts
status `running`; on a table failure `log_finish(..., "failed", total,
str(e))` runs once and the exception is re-raised; if every table
completes, `log_finish(..., "success", total)` runs once. -/
def orchestrate (outs : List (Except String Nat)) : RunLog :=
  let r := orchLoop outs 0
  match r.2.1 with
  | none => ⟨[.start "running", .finish "success" (some r.1) none], none⟩
  | some m => ⟨[.start "running", .finish "failed" (some r.1) (some m)], some m⟩

/-- The number of tables on which `import_table` was invoked before the
loop stopped. -/
def attemptedTables (outs : List (Except String Nat)) : Nat :=
  (orchLoop outs 0).2.2

/-- `export_f101` from load_download.py as a run-record trace: `log_start`
inserts status `STARTED`; success finishes with `SUCCESS` and the row
count; an exception finishes with `FAILED`, a null rows value (kept by
`COALESCE`) and the error text, then re-raises. -/
def exportRun (outcome : Except String Nat) : RunLog :=
  match outcome with
  | .ok n => ⟨[.start "STARTED", .finish "SUCCESS" (some n) none], none⟩
  | .error m => ⟨[.start "STARTED", .finish "FAILED" none (some m)], some m⟩

/-- `import_f101` from load_download.py as a run-record trace: same
logging shape as `export_f101` (statuses `STARTED` / `SUCCESS` /
`FAILED`). -/
def importRun (outcome : Except String Nat) : RunLog :=
  match outcome with
  | .ok n => ⟨[.start "STARTED", .finish "SUCCESS" (some n) none], none⟩
  | .error m => ⟨[.start "STARTED", .finish "FAILED" none (some m)], some m⟩

/-- Whether a run-history write is the finishing `UPDATE`. -/
def isFinish : LogEvent → Bool
  | .finish _ _ _ => true
  | .start _ => false

/-- A run-record trace that creates the record once with `startSt` and
then mutates it exactly once, at the end, to a terminal status drawn from
`terms`. -/
def statusDiscipline (L : RunLog) (startSt : String) (terms : List String) : Prop :=
  ∃ st r nt, st ∈ terms ∧ L.events = [.start startSt, .finish st r nt]

/-- A destination row of a keyed (upsert) table, split as
(primary-key column values, non-key column values). -/
abbrev KeyedRow := Row × Row

/-- The contents of a keyed destination table. -/
abbrev Store := List KeyedRow

/-- One `INSERT ... ON CONFLICT (pk) DO UPDATE SET <non-key cols> =
EXCLUDED....` statement: if some existing row has the incoming key, every
such row's non-key columns are overwritten with the incoming values
(the key columns already agree); otherwise the row is appended. -/
def upsertRow (s : Store) (kr : KeyedRow) : Store :=
  if s.any (fun p => p.1 = kr.1) then s.map (fun p => if p.1 = kr.1 then kr else p)
  else s ++ [kr]

/-- `cur.executemany(insert_queries[table], rows)` against an upsert
table: the statement is applied once per batch row, in batch order. -/
def applyBatch (s : Store) (b : List KeyedRow) : Store :=
  b.foldl upsertRow s

/-- The effect of `import_table` on an upsert table's contents: an empty
cleaned batch returns before any statement is issued; otherwise the batch
is upserted. -/
def importUpsert (s : Store) (b : List KeyedRow) : Store :=
  if b.isEmpty then s else applyBatch s b

/-- The effect of `import_table` on `ds.ft_posting_f`: an empty cleaned
batch returns before any statement is issued; otherwise the table is
truncated and the batch inserted. -/
def importTruncate (s : List Row) (b : List Row) : List Row :=
  if b.isEmpty then s else b

/-! ## C6 — loading the same file twice is idempotent -/

lemma upd_key (p q : KeyedRow) : (if q.1 = p.1 then p else q).1 = q.1 := by
  split
  · next h => exact h.symm
  · rfl

/-- The last batch entry carrying a given key, if any (the final value the
upsert sequence writes for that key). -/
def lastRow (b : List KeyedRow) (k : Row) : Option KeyedRow :=
  b.foldl (fun acc p => if p.1 = k then some p else acc) none

lemma lastRow_foldl (b : List KeyedRow) (k : Row) :
    ∀ acc : Option KeyedRow,
      b.foldl (fun acc p => if p.1 = k then some p else acc) acc = (lastRow b k).or acc := by
  induction b with
  | nil => intro acc; rfl
  | cons p b ih =>
    intro acc
    show b.foldl _ (if p.1 = k then some p else acc) =
      ((b.foldl _ (if p.1 = k then some p else none)).or acc)
    rw [ih, ih]
    cases hl : lastRow b k with
    | some r => rfl
    | none =>
      simp only [Option.none_or]
      split <;> rfl

lemma lastRow_cons (p : KeyedRow) (b : List KeyedRow) (k : Row) :
    lastRow (p :: b) k = (lastRow b k).or (if p.1 = k then some p else none) := by
  show b.foldl _ (if p.1 = k then some p else none) = _
  exact lastRow_foldl b k _

/-- Overwrite each store entry with the final batch value for its key,
when the batch carries one. -/
def updTable (g : Row → Option KeyedRow) (s : Store) : Store :=
  s.map (fun q => (g q.1).getD q)

lemma applyBatch_of_keys (b : List KeyedRow) :
    ∀ s : Store, (∀ p ∈ b, ∃ q ∈ s, q.1 = p.1) →
      applyBatch s b = updTable (lastRow b) s := by
  induction b with
  | nil =>
    intro s _
    exact (List.map_id' s).symm
  | cons p b ih =>
    intro s h
    obtain ⟨q0, hq0, hq0e⟩ := h p (List.mem_cons_self p b)
    have hany : s.any (fun q => q.1 = p.1) = true :=
      List.any_eq_true.mpr ⟨q0, hq0, decide_eq_true hq0e⟩
    have hup : upsertRow s p = s.map (fun q => if q.1 = p.1 then p else q) := by
      unfold upsertRow
      rw [if_pos hany]
    have hab : applyBatch s (p :: b) =
        applyBatch (s.map (fun q => if q.1 = p.1 then p else q)) b := by
      show List.foldl upsertRow (upsertRow s p) b = _
      rw [hup]
      rfl
    rw [hab]
    have h2 : ∀ r ∈ b, ∃ q ∈ s.map (fun q => if q.1 = p.1 then p else q), q.1 = r.1 := by
      intro r hr
      obtain ⟨q, hq, hqe⟩ := h r (List.mem_cons_of_mem p hr)
      exact ⟨_, List.mem_map_of_mem _ hq, (upd_key p q).trans hqe⟩
    rw [ih _ h2]
    unfold updTable
    rw [List.map_map]
    apply List.map_congr_left
    intro q _
    show (lastRow b (if q.1 = p.1 then p else q).1).getD (if q.1 = p.1 then p else q) =
      (lastRow (p :: b) q.1).getD q
    rw [upd_key p q, lastRow_cons]
    cases hl : lastRow b q.1 with
    | some r => rfl
    | none =>
      simp only [Option.none_or, Option.getD_none]
      rcases eq_or_ne q.1 p.1 with hq1 | hq1
      · rw [if_pos hq1, if_pos hq1.symm]
        rfl
      · rw [if_neg hq1, if_neg (fun hh => hq1 hh.symm)]
        rfl

lemma mem_upsert_key_stable (s : Store) (p : KeyedRow) (k : Row)
    (h : ∃ q ∈ s, q.1 = k) : ∃ q ∈ upsertRow s p, q.1 = k := by
  obtain ⟨q, hq, hqe⟩ := h
  unfold upsertRow
  split
  · exact ⟨_, List.mem_map_of_mem _ hq, (upd_key p q).trans hqe⟩
  · exact ⟨q, List.mem_append_left _ hq, hqe⟩

lemma mem_upsert_self_key (s : Store) (p : KeyedRow) :
    ∃ q ∈ upsertRow s p, q.1 = p.1 := by
  unfold upsertRow
  split
  · next hany =>
    rw [List.any_eq_true] at hany
    obtain ⟨q, hq, hqd⟩ := hany
    have hqe : q.1 = p.1 := of_decide_eq_true hqd
    exact ⟨p, List.mem_map.mpr ⟨q, hq, by rw [if_pos hqe]⟩, rfl⟩
  · exact ⟨p, List.mem_append_right _ (by simp), rfl⟩

lemma applyBatch_key_stable (b : List KeyedRow) :
    ∀ (s : Store) (k : Row), (∃ q ∈ s, q.1 = k) → ∃ q ∈ applyBatch s b, q.1 = k := by
  induction b with
  | nil => intro s k h; exact h
  | cons p b ih => intro s k h; exact ih (upsertRow s p) k (mem_upsert_key_stable s p k h)

lemma applyBatch_keys_present (b : List KeyedRow) :
    ∀ (s : Store), ∀ p ∈ b, ∃ q ∈ applyBatch s b, q.1 = p.1 := by
  induction b with
  | nil => intro s p hp; cases hp
  | cons p0 b ih =>
    intro s p hp
    rcases List.mem_cons.mp hp with rfl | hmem
    · exact applyBatch_key_stable b (upsertRow s p) p.1 (mem_upsert_self_key s p)
    · exact ih (upsertRow s p0) p hmem

lemma upsert_uniform (s : Store) (p : KeyedRow) :
    ∀ q ∈ upsertRow s p, q.1 = p.1 → q = p := by
  unfold upsertRow
  split
  · intro q hq hqk
    obtain ⟨q0, hq0, hq0e⟩ := List.mem_map.mp hq
    by_cases h0 : q0.1 = p.1
    · rw [← hq0e, if_pos h0]
    · rw [if_neg h0] at hq0e
      rw [← hq0e] at hqk
      exact absurd hqk h0
  · next hany =>
    intro q hq hqk
    rcases List.mem_append.mp hq with hs | hp
    · exact absurd (List.any_eq_true.mpr ⟨q, hs, decide_eq_true hqk⟩) hany
    · simpa using hp

lemma applyBatch_uniform (b : List KeyedRow) :
    ∀ (s : Store) (k : Row) (r : KeyedRow),
      (∀ q ∈ s, q.1 = k → q = r) → lastRow b k = none →
      ∀ q ∈ applyBatch s b, q.1 = k → q = r := by
  induction b with
  | nil => intro s k r hs _ q hq hqk; exact hs q hq hqk
  | cons p b ih =>
    intro s k r hs hlast q hq hqk
    rw [lastRow_cons] at hlast
    cases hlb : lastRow b k with
    | some r2 => rw [hlb] at hlast; cases hlast
    | none =>
      rw [hlb, Option.none_or] at hlast
      have hpk : ¬(p.1 = k) := by
        intro hh
        rw [if_pos hh] at hlast
        cases hlast
      have hs2 : ∀ q2 ∈ upsertRow s p, q2.1 = k → q2 = r := by
        unfold upsertRow
        split
        · intro q2 hq2 hq2k
          obtain ⟨q0, hq0, hq0e⟩ := List.mem_map.mp hq2
          by_cases h0 : q0.1 = p.1
          · rw [if_pos h0] at hq0e
            rw [← hq0e] at hq2k
            exact absurd hq2k hpk
          · rw [if_neg h0] at hq0e
            rw [← hq0e] at hq2k ⊢
            exact hs q0 hq0 hq2k
        · intro q2 hq2 hq2k
          rcases List.mem_append.mp hq2 with h1 | h1
          · exact hs q2 h1 hq2k
          · rw [List.mem_singleton] at h1
            rw [h1] at hq2k
            exact absurd hq2k hpk
      exact ih (upsertRow s p) k r hs2 hlb q hq hqk

lemma applyBatch_entry (b : List KeyedRow) :
    ∀ (s : Store) (q : KeyedRow), q ∈ applyBatch s b →
      ∀ r, lastRow b q.1 = some r → q = r := by
  induction b with
  | nil => intro s q _ r hr; cases hr
  | cons p b ih =>
    intro s q hq r hr
    rw [lastRow_cons] at hr
    cases hlb : lastRow b q.1 with
    | some r2 =>
      rw [hlb, Option.or_some] at hr
      exact (ih (upsertRow s p) q hq r2 hlb).trans (Option.some.inj hr)
    | none =>
      rw [hlb, Option.none_or] at hr
      split at hr
      · next hpk =>
        cases hr
        exact applyBatch_uniform b (upsertRow s p) q.1 p
          (fun q2 hq2 hq2k => upsert_uniform s p q2 hq2 (hq2k.trans hpk.symm))
          hlb q hq rfl
      · cases hr

lemma applyBatch_idem (s : Store) (b : List KeyedRow) :
    applyBatch (applyBatch s b) b = applyBatch s b := by
  rw [applyBatch_of_keys b (applyBatch s b) (applyBatch_keys_present b s)]
  unfold updTable
  have h : ∀ q ∈ applyBatch s b, (lastRow b q.1).getD q = q := by
    intro q hq
    cases hl : lastRow b q.1 with
    | none => rfl
    | some r =>
      rw [applyBatch_entry b s q hq r hl]
      rfl
  rw [List.map_congr_left h, List.map_id']

/-- C6: loading the same cleaned batch twice against an upsert table
(`INSERT ... ON CONFLICT (pk) DO UPDATE`) leaves the destination with the
same final contents — hence the same row count — as loading it once, and
loading the same non-empty cleaned batch twice against the
truncate-and-reload table `ft_posting_f` leaves exactly one copy of the
batch. -/
theorem load_twice_idempotent (s : Store) (b : List KeyedRow) (s2 b2 : List Row)
    (h : b2 ≠ []) :
    importUpsert (importUpsert s b) b = importUpsert s b ∧
    importTruncate (importTruncate s2 b2) b2 = importTruncate s2 b2 ∧
    importTruncate s2 b2 = b2 := by
  have hbe : b2.isEmpty = false := List.isEmpty_eq_false.mpr h
  refine ⟨?_, ?_, ?_⟩
  · by_cases hb : b.isEmpty
    · simp [importUpsert, hb]
    · simp [importUpsert, hb, applyBatch_idem]
  · simp [importTruncate, hbe]
  · simp [importTruncate, hbe]

theorem load_twice_idempotent_witness :
    importUpsert (importUpsert ([] : Store) [([some "1"], [some "a"])])
        [([some "1"], [some "a"])] =
      importUpsert ([] : Store) [([some "1"], [some "a"])] ∧
    importTruncate (importTruncate ([[some "x"]] : List Row) [[some "y"]]) [[some "y"]] =
      importTruncate [[some "x"]] [[some "y"]] ∧
    importTruncate [[some "x"]] [[some "y"]] = [[some "y"]] :=
  load_twice_idempotent [] [([some "1"], [some "a"])] [[some "x"]] [[some "y"]]
    (by decide)

/-! ## C7 — run-record status discipline -/

/-- C7 counterexample: the claim requires every run-record writer,
including the companion export/import interface, to keep the status within
running/success/failed; the companion export interface creates its run
record with status `STARTED`, which is outside that set. -/
theorem companion_status_outside_spec :
    (exportRun (Except.ok 7)).events.head? = some (.start "STARTED") ∧
    ¬("STARTED" ∈ (["running", "success", "failed"] : List String)) := by
  exact ⟨rfl, by decide⟩

/-- C7 amended: the main loader creates its run record with status
`running` and mutates it exactly once, at the end of the trace, to one of
`success`/`failed`; the companion export/import interface follows the same
create-once/finish-once discipline but with its own status literals
`STARTED` → `SUCCESS`/`FAILED`.  In every trace the single terminal update
is the last write, so no run transitions out of a terminal state. -/
theorem run_logger_status_discipline (outs : List (Except String Nat))
    (o1 o2 : Except String Nat) :
    statusDiscipline (orchestrate outs) "running" ["success", "failed"] ∧
    statusDiscipline (exportRun o1) "STARTED" ["SUCCESS", "FAILED"] ∧
    statusDiscipline (importRun o2) "STARTED" ["SUCCESS", "FAILED"] ∧
    ((orchestrate outs).events.filter isFinish).length = 1 ∧
    ((exportRun o1).events.filter isFinish).length = 1 ∧
    ((importRun o2).events.filter isFinish).length = 1 := by
  have horch : (orchestrate outs).events =
      [.start "running", .finish "success" (some (orchLoop outs 0).1) none] ∨
      ∃ m, (orchestrate outs).events =
        [.start "running", .finish "failed" (some (orchLoop outs 0).1) (some m)] := by
    unfold orchestrate
    simp only []
    cases (orchLoop outs 0).2.1 with
    | none => exact Or.inl rfl
    | some m => exact Or.inr ⟨m, rfl⟩
  refine ⟨?_, ?_, ?_, ?_, ?_, ?_⟩
  · rcases horch with h | ⟨m, h⟩
    · exact ⟨"success", _, _, by decide, h⟩
    · exact ⟨"failed", _, _, by decide, h⟩
  · cases o1 with
    | ok n => exact ⟨"SUCCESS", some n, none, by decide, rfl⟩
    | error m => exact ⟨"FAILED", none, some m, by decide, rfl⟩
  · cases o2 with
    | ok n => exact ⟨"SUCCESS", some n, none, by decide, rfl⟩
    | error m => exact ⟨"FAILED", none, some m, by decide, rfl⟩
  · rcases horch with h | ⟨m, h⟩ <;> rw [h] <;> rfl
  · cases o1 <;> rfl
  · cases o2 <;> rfl



/-! ## Helper lemmas -/

lemma mapColRows_length (hdr : List String) (rows : List Row) (col : String) (f : Cell → Cell) :
    (mapColRows hdr rows col f).length = rows.length := by
  simp [mapColRows]

lemma dateStep_length (dc : List (String × String)) (hdr : List String) :
    ∀ rows : List Row, (dateStep dc hdr rows).length = rows.length := by
  induction dc with
  | nil => intro rows; rfl
  | cons p dc ih =>
    intro rows
    simp only [dateStep, List.foldl_cons] at *
    rw [ih]
    split
    · exact mapColRows_length ..
    · rfl

lemma varcharFold_length (vl : List (String × Nat)) (hdr : List String) :
    ∀ rows : List Row,
      (vl.foldl
        (fun rs p => if hdr.contains p.1 then mapColRows hdr rs p.1 (varcharClean p.2) else rs)
        rows).length = rows.length := by
  induction vl with
  | nil => intro rows; rfl
  | cons p vl ih =>
    intro rows
    simp only [List.foldl_cons]
    rw [ih]
    split
    · exact mapColRows_length ..
    · rfl

lemma varcharStep_length (table : String) (hdr : List String) (rows : List Row) :
    (varcharStep table hdr rows).length = rows.length := by
  unfold varcharStep
  split
  · rfl
  · exact varcharFold_length ..

lemma preparePipeline_rows_le (table : String) (t : Table) (out : Table)
    (h : preparePipeline table t = .ok out) :
    out.rows.length ≤ (dedupRows t.rows).length := by
  unfold preparePipeline at h
  cases hdc : dateColumns table with
  | none =>
    rw [hdc] at h
    cases h
    simp [varcharStep_length]
  | some dc =>
    rw [hdc] at h
    simp only at h
    split at h
    · cases h
      simp only [varcharStep_length]
      calc ((dateStep dc (t.header.map snake_case) (dedupRows t.rows)).filter
              (dropnaPred dc (t.header.map snake_case))).length
          ≤ (dateStep dc (t.header.map snake_case) (dedupRows t.rows)).length :=
            List.length_filter_le ..
        _ = (dedupRows t.rows).length := dateStep_length ..
    · cases h

/-! ## C1 — deduplication removes every copy -/

/-- C1: any set of input rows that are byte-for-byte identical across all
columns is entirely removed by the sanitizer — every copy, including the
first, is absent after deduplication (no representative survives); the
emitted `[WARN]` count equals the number of removed rows; and the later
sanitizing stages never add rows, so the cleaned output is no larger than
the deduplicated frame. -/
theorem dedup_removes_every_copy (rows : List Row) (r : Row) (h : 2 ≤ rows.count r) :
    r ∉ dedupRows rows ∧
    dedupDroppedCount rows = rows.length - (dedupRows rows).length ∧
    ∀ table t out, preparePipeline table t = .ok out →
      out.rows.length ≤ (dedupRows t.rows).length := by
  refine ⟨?_, ?_, fun table t out hp => preparePipeline_rows_le table t out hp⟩
  · intro hmem
    rw [dedupRows, List.mem_filter] at hmem
    have := hmem.2
    simp only [beq_iff_eq] at this
    omega
  · have := List.length_eq_length_filter_add (l := rows) (fun r => rows.count r == 1)
    rw [dedupDroppedCount, dedupRows]
    simp only [Bool.not_eq_true'] at *
    omega

theorem dedup_removes_every_copy_witness :
    ([[some "a"], [some "a"], [some "b"]] : List Row).count [some "a"] ≥ 2 ∧
    [some "a"] ∉ dedupRows [[some "a"], [some "a"], [some "b"]] :=
  ⟨by decide, (dedup_removes_every_copy _ _ (by decide)).1⟩

/-! ## C2 — orchestrator failure/success finalisation -/

lemma orchLoop_ok_append (pre : List Nat) (rest : List (Except String Nat)) :
    ∀ total : Nat,
      orchLoop (pre.map Except.ok ++ rest) total =
        ((orchLoop rest (total + pre.sum)).1,
         (orchLoop rest (total + pre.sum)).2.1,
         (orchLoop rest (total + pre.sum)).2.2 + pre.length) := by
  induction pre with
  | nil => intro total; simp [orchLoop]
  | cons n pre ih =>
    intro total
    have hadd : total + n + pre.sum = total + (n + pre.sum) := by omega
    simp only [List.map_cons, List.cons_append, orchLoop, List.append_eq]
    rw [ih (total + n), hadd]
    simp only [List.sum_cons, List.length_cons, Prod.mk.injEq, true_and]
    omega

/-- C2: if a table's load raises, the orchestrator updates the run record
exactly once — to status `failed`, with rows-loaded equal to the sum
accumulated from the tables completed before the failure and the note
carrying the error message — attempts no table configured after the
failing one, and re-raises the error; if every configured table completes,
the single update sets `success` with the summed row count. -/
theorem orchestrator_failure_semantics (pre ns : List Nat) (e : String)
    (post : List (Except String Nat)) :
    orchestrate (pre.map Except.ok ++ Except.error e :: post) =
      ⟨[.start "running", .finish "failed" (some pre.sum) (some e)], some e⟩ ∧
    attemptedTables (pre.map Except.ok ++ Except.error e :: post) = pre.length + 1 ∧
    orchestrate (ns.map Except.ok) =
      ⟨[.start "running", .finish "success" (some ns.sum) none], none⟩ ∧
    attemptedTables (ns.map Except.ok) = ns.length := by
  have h1 := orchLoop_ok_append pre (Except.error e :: post) 0
  have h2 := orchLoop_ok_append ns [] 0
  simp only [orchLoop] at h1 h2
  rw [List.append_nil] at h2
  refine ⟨?_, ?_, ?_, ?_⟩
  · rw [orchestrate, h1]; simp
  · rw [attemptedTables, h1]; simp [Nat.add_comm]
  · rw [orchestrate, h2]; simp
  · rw [attemptedTables, h2]; simp

/-! ## C8 — encoding resolver -/

lemma resolveEncoding_error_iff (reader : String → Option Table) :
    ∀ l : List String,
      (resolveEncoding reader l = .error .unreadable ↔ ∀ e ∈ l, reader e = none) := by
  intro l
  induction l with
  | nil => simp [resolveEncoding]
  | cons e rest ih =>
    simp only [resolveEncoding]
    cases hr : reader e with
    | some t =>
      simp only [List.mem_cons]
      constructor
      · intro h; cases h
      · intro h
        have := h e (Or.inl rfl)
        rw [hr] at this
        cases this
    | none =>
      rw [ih]
      constructor
      · intro h e' he'
        rcases List.mem_cons.mp he' with rfl | hmem
        · exact hr
        · exact h e' hmem
      · intro h e' he'
        exact h e' (List.mem_cons_of_mem _ he')

lemma resolveEncoding_first_success (reader : String → Option Table) :
    ∀ (l : List String) (t : Table),
      l.findSome? reader = some t → resolveEncoding reader l = .ok t := by
  intro l
  induction l with
  | nil => intro t h; cases h
  | cons e rest ih =>
    intro t h
    rw [List.findSome?_cons] at h
    simp only [resolveEncoding]
    cases hr : reader e with
    | some t' => rw [hr] at h; cases h; rfl
    | none => rw [hr] at h; exact ih t h

/-- C8: the encoding resolver tries the fixed candidate list `utf-8,
utf-8-sig, cp1251, latin-1` in order and returns the decoded content of
the first candidate that decodes the whole file; it fails with the
unreadable-file error exactly when every candidate fails to decode. -/
theorem encoding_resolver_first_success (reader : String → Option Table) :
    (resolveEncoding reader encodingCandidates = .error .unreadable ↔
      ∀ e ∈ encodingCandidates, reader e = none) ∧
    (∀ t, encodingCandidates.findSome? reader = some t →
      resolveEncoding reader encodingCandidates = .ok t) :=
  ⟨resolveEncoding_error_iff reader encodingCandidates,
   fun t h => resolveEncoding_first_success reader encodingCandidates t h⟩

theorem encoding_resolver_first_success_witness :
    resolveEncoding (fun e => if e = "cp1251" then some ⟨["a"], []⟩ else none)
      encodingCandidates = .ok ⟨["a"], []⟩ :=
  (encoding_resolver_first_success
    (fun e => if e = "cp1251" then some ⟨["a"], []⟩ else none)).2 ⟨["a"], []⟩ (by decide)

/-! ## C9 — VARCHAR enforcement casts missing values to the string "nan" -/

/-- C9: for a VARCHAR-limited column, a missing input value is cast to the
literal string `"nan"` by `astype(str)` before trimming/truncation, so it
is emitted as `"nan"` truncated to the limit (for any positive limit) and
not as null; at the configured limit 3 the emitted value is exactly
`"nan"`. -/
theorem varchar_missing_becomes_nan (lim : Nat) (h : 1 ≤ lim) :
    cellStr none = "nan" ∧
    varcharClean lim none = some (String.mk (['n', 'a', 'n'].take lim)) ∧
    varcharClean 3 none = some "nan" := by
  refine ⟨rfl, ?_, by decide⟩
  obtain ⟨k, rfl⟩ : ∃ k, lim = k + 1 := ⟨lim - 1, by omega⟩
  have hstrip : listStrip (cellStr (none : Cell)).data = ['n', 'a', 'n'] := by decide
  rw [varcharClean, hstrip]
  simp [List.take_succ_cons]

theorem varchar_missing_becomes_nan_witness :
    varcharClean 3 none = some "nan" :=
  (varchar_missing_becomes_nan 3 (by decide)).2.2

/-! ## Column access lemmas -/

lemma getCell_transformRow_self (col : String) (f : Cell → Cell) :
    ∀ (hdr : List String) (r : Row),
      getCell hdr (transformRow col f hdr r) col = (getCell hdr r col).map f := by
  intro hdr
  induction hdr with
  | nil => intro r; cases r <;> rfl
  | cons h hs ih =>
    intro r
    cases r with
    | nil => rfl
    | cons c cs =>
      simp only [transformRow, getCell]
      by_cases hc : h = col
      · simp [hc]
      · simp [hc, ih]

lemma getCell_transformRow_ne (col col' : String) (hne : col' ≠ col) (f : Cell → Cell) :
    ∀ (hdr : List String) (r : Row),
      getCell hdr (transformRow col' f hdr r) col = getCell hdr r col := by
  intro hdr
  induction hdr with
  | nil => intro r; cases r <;> rfl
  | cons h hs ih =>
    intro r
    cases r with
    | nil => rfl
    | cons c cs =>
      simp only [transformRow, getCell]
      by_cases hc : h = col
      · have hcc : ¬(h = col') := fun hh => hne (hh ▸ hc)
        rw [if_pos hc, if_pos hc, if_neg hcc]
      · rw [if_neg hc, if_neg hc]
        exact ih cs

lemma getCell_none_of_not_contains :
    ∀ (hdr : List String) (r : Row) (col : String),
      hdr.contains col = false → getCell hdr r col = none := by
  intro hdr
  induction hdr with
  | nil => intro r col _; cases r <;> rfl
  | cons h hs ih =>
    intro r col hcon
    rw [List.contains_cons, Bool.or_eq_false_iff] at hcon
    have hne : ¬(h = col) := by
      have h1 := hcon.1
      simp only [beq_eq_false_iff_ne] at h1
      exact fun hh => h1 hh.symm
    cases r with
    | nil => rfl
    | cons c cs =>
      simp only [getCell, if_neg hne]
      exact ih cs col hcon.2

/-! ## C4 — VARCHAR length enforcement -/

lemma varcharClean_cases (lim : Nat) (c : Cell) :
    varcharClean lim c = none ∨ ∃ s, varcharClean lim c = some s ∧ s.length ≤ lim := by
  have hdef : varcharClean lim c =
      if ((listStrip (cellStr c).data).take lim).isEmpty then none
      else some (String.mk ((listStrip (cellStr c).data).take lim)) := rfl
  rw [hdef]
  split
  · exact Or.inl rfl
  · right
    refine ⟨_, rfl, ?_⟩
    have hlen : (String.mk ((listStrip (cellStr c).data).take lim)).length
        = ((listStrip (cellStr c).data).take lim).length := rfl
    rw [hlen, List.length_take]
    omega

/-- C4: for every VARCHAR-limited column, every sanitized value is either
null or a string of length at most the configured limit (the value being
trimmed then truncated), and a value that strips to the empty string is
represented as null, never as an empty string — both at the cell level and
across the full sanitized output of the limited table `md_currency_d`
(whose two declared limits are 3). -/
theorem varchar_limit_enforced :
    (∀ lim c, varcharClean lim c = none ∨
      ∃ s, varcharClean lim c = some s ∧ s.length ≤ lim) ∧
    (∀ lim c, listStrip (cellStr c).data = [] → varcharClean lim c = none) ∧
    (∀ t out, preparePipeline "md_currency_d" t = .ok out →
      ∀ col, col ∈ ["currency_code", "code_iso_char"] →
        ∀ r ∈ out.rows, ∀ cv, getCell out.header r col = some cv →
          cv = none ∨ ∃ s, cv = some s ∧ s.length ≤ 3) := by
  refine ⟨varcharClean_cases, ?_, ?_⟩
  · intro lim c hnil
    unfold varcharClean
    rw [hnil]
    simp
  · intro t out hok col hcol r hr cv hcv
    have hpp : preparePipeline "md_currency_d" t =
        .ok ⟨t.header.map snake_case,
          varcharStep "md_currency_d" (t.header.map snake_case) (dedupRows t.rows)⟩ := rfl
    rw [hpp] at hok
    injection hok with hok
    subst hok
    set hdr := t.header.map snake_case with hhdr
    set rows0 := dedupRows t.rows with hrows0
    have hvs : varcharStep "md_currency_d" hdr rows0 =
        (if hdr.contains "code_iso_char" then
          mapColRows hdr
            (if hdr.contains "currency_code" then
              mapColRows hdr rows0 "currency_code" (varcharClean 3)
            else rows0) "code_iso_char" (varcharClean 3)
        else
          (if hdr.contains "currency_code" then
            mapColRows hdr rows0 "currency_code" (varcharClean 3)
          else rows0)) := rfl
    simp only [hvs] at hr hcv ⊢
    simp only [List.mem_cons, List.not_mem_nil, or_false] at hcol
    rcases hcol with rfl | rfl
    · by_cases h1 : hdr.contains "currency_code"
      · rw [if_pos h1] at hr
        by_cases h2 : hdr.contains "code_iso_char"
        · rw [if_pos h2] at hr
          obtain ⟨r1, hr1, rfl⟩ := List.mem_map.mp hr
          rw [getCell_transformRow_ne _ _ (by decide) _ _ _] at hcv
          obtain ⟨r0, hr0, rfl⟩ := List.mem_map.mp hr1
          rw [getCell_transformRow_self] at hcv
          obtain ⟨c0, _, rfl⟩ := Option.map_eq_some'.mp hcv
          exact varcharClean_cases 3 c0
        · rw [if_neg h2] at hr
          obtain ⟨r0, hr0, rfl⟩ := List.mem_map.mp hr
          rw [getCell_transformRow_self] at hcv
          obtain ⟨c0, _, rfl⟩ := Option.map_eq_some'.mp hcv
          exact varcharClean_cases 3 c0
      · have := getCell_none_of_not_contains hdr r "currency_code"
          (Bool.not_eq_true _ ▸ h1)
        rw [this] at hcv
        cases hcv
    · by_cases h2 : hdr.contains "code_iso_char"
      · rw [if_pos h2] at hr
        obtain ⟨r1, hr1, rfl⟩ := List.mem_map.mp hr
        rw [getCell_transformRow_self] at hcv
        obtain ⟨c0, _, rfl⟩ := Option.map_eq_some'.mp hcv
        exact varcharClean_cases 3 c0
      · rw [if_neg h2] at hr
        have := getCell_none_of_not_contains hdr r "code_iso_char"
          (Bool.not_eq_true _ ▸ h2)
        rw [this] at hcv
        cases hcv

theorem varchar_limit_enforced_witness :
    (varcharClean 3 (some "   ") = none) ∧
    (some "USD" = none ∨ ∃ s, (some "USD" : Cell) = some s ∧ s.length ≤ 3) :=
  ⟨varchar_limit_enforced.2.1 3 (some "   ") (by decide),
   varchar_limit_enforced.2.2 ⟨["currency_rk", "currency_code"], [[some "1", some "  USDX "]]⟩
     ⟨["currency_rk", "currency_code"], [[some "1", some "USD"]]⟩ (by rfl)
     "currency_code" (by decide) [some "1", some "USD"] (by decide) (some "USD") (by decide)⟩

/-! ## C5 — column reconciliation -/

lemma contains_eq_mem (l : List String) (a : String) : l.contains a = true ↔ a ∈ l := by
  simp [List.contains, List.elem_iff]

set_option maxRecDepth 80000 in
lemma extractCols_queries :
    extractCols (insertQuery "ft_balance_f") =
      ["on_date", "account_rk", "currency_rk", "balance_out"] ∧
    extractCols (insertQuery "ft_posting_f") =
      ["oper_date", "credit_account_rk", "debet_account_rk", "credit_amount",
       "debet_amount"] ∧
    extractCols (insertQuery "md_account_d") =
      ["data_actual_date", "data_actual_end_date", "account_rk", "account_number",
       "char_type", "currency_rk", "currency_code"] ∧
    extractCols (insertQuery "md_currency_d") =
      ["currency_rk", "data_actual_date", "data_actual_end_date", "currency_code",
       "code_iso_char"] ∧
    extractCols (insertQuery "md_exchange_rate_d") =
      ["data_actual_date", "data_actual_end_date", "currency_rk", "reduced_cource",
       "code_iso_num"] ∧
    extractCols (insertQuery "md_ledger_account_s") =
      ["chapter", "chapter_name", "section_number", "section_name", "subsection_name",
       "ledger1_account", "ledger1_account_name", "ledger_account",
       "ledger_account_name", "characteristic", "start_date", "end_date"] :=
  ⟨by decide, by decide, by decide, by decide, by decide, by decide⟩

/-- C5: reconciliation fails with the missing-columns error — naming
exactly the required columns absent from the sanitized data — if and only
if some column of the write template is absent; on success the reconciled
frame's column sequence equals the template's parameter order (whatever
the source header order was), and the parameter orders derived from the
six configured write templates are the listed ones. -/
theorem reconcile_missing_iff_and_order (cols : List String) (t : Table) :
    (∀ e, reconcile cols t = .error e ↔
      (e = .missingColumns (cols.filter (fun c => !(t.header.contains c))) ∧
        ∃ c ∈ cols, c ∉ t.header)) ∧
    (∀ out, reconcile cols t = .ok out → out.header = cols) ∧
    extractCols (insertQuery "ft_balance_f") =
      ["on_date", "account_rk", "currency_rk", "balance_out"] ∧
    extractCols (insertQuery "ft_posting_f") =
      ["oper_date", "credit_account_rk", "debet_account_rk", "credit_amount",
       "debet_amount"] ∧
    extractCols (insertQuery "md_account_d") =
      ["data_actual_date", "data_actual_end_date", "account_rk", "account_number",
       "char_type", "currency_rk", "currency_code"] ∧
    extractCols (insertQuery "md_currency_d") =
      ["currency_rk", "data_actual_date", "data_actual_end_date", "currency_code",
       "code_iso_char"] ∧
    extractCols (insertQuery "md_exchange_rate_d") =
      ["data_actual_date", "data_actual_end_date", "currency_rk", "reduced_cource",
       "code_iso_num"] ∧
    extractCols (insertQuery "md_ledger_account_s") =
      ["chapter", "chapter_name", "section_number", "section_name", "subsection_name",
       "ledger1_account", "ledger1_account_name", "ledger_account",
       "ledger_account_name", "characteristic", "start_date", "end_date"] := by
  obtain ⟨e1, e2, e3, e4, e5, e6⟩ := extractCols_queries
  refine ⟨?_, ?_, e1, e2, e3, e4, e5, e6⟩
  · intro e
    unfold reconcile
    simp only []
    split
    case isTrue hmt =>
      constructor
      · intro h; cases h
      · rintro ⟨-, c, hc, hcn⟩
        exfalso
        rw [List.isEmpty_iff, List.filter_eq_nil_iff] at hmt
        have := hmt c hc
        simp only [Bool.not_eq_eq_eq_not, Bool.not_true, Bool.not_eq_false] at this
        exact hcn ((contains_eq_mem t.header c).mp (by simpa using this))
    case isFalse hmf =>
      constructor
      · intro h
        injection h with h
        refine ⟨h.symm, ?_⟩
        rw [List.isEmpty_iff] at hmf
        obtain ⟨c, hc⟩ := List.exists_mem_of_ne_nil _ hmf
        rw [List.mem_filter] at hc
        refine ⟨c, hc.1, fun hmem => ?_⟩
        have := hc.2
        rw [Bool.not_eq_eq_eq_not, Bool.not_true] at this
        rw [← contains_eq_mem t.header c] at hmem
        rw [this] at hmem
        cases hmem
      · rintro ⟨rfl, -⟩
        rfl
  · intro out hok
    unfold reconcile at hok
    simp only [] at hok
    split at hok
    · rw [← Except.ok.inj hok]
    · cases hok

theorem reconcile_missing_iff_and_order_witness :
    reconcile ["on_date"] ⟨["x"], []⟩ = .error (.missingColumns ["on_date"]) :=
  ((reconcile_missing_iff_and_order ["on_date"] ⟨["x"], []⟩).1
    (.missingColumns ["on_date"])).mpr ⟨by decide, "on_date", by decide, by decide⟩

/-! ## C3 — date coercion and required-date dropping -/

lemma csplit1_not_mem (sep : Char) : ∀ l : List Char, sep ∉ l → csplit1 sep l = [l] := by
  intro l
  induction l with
  | nil => intro _; rfl
  | cons c cs ih =>
    intro h
    have hc : ¬(c = sep) := fun hh => h (hh ▸ List.mem_cons_self c cs)
    have hcs : sep ∉ cs := fun hh => h (List.mem_cons_of_mem c hh)
    simp only [csplit1, ih hcs]
    rw [if_neg hc]

lemma parse_not_guard (v : String) (sep : Char) (hsep : sep = '.' ∨ sep = '-')
    (x : Nat × Nat × Nat) (h : parseDMY v sep = some x) :
    ¬(v = "" ∨ pylower v ∈ ["nan", "none"]) := by
  have h3 : ∃ ds ms ys, csplit1 sep v.data = [ds, ms, ys] := by
    unfold parseDMY at h
    split at h
    · rename_i ds ms ys heq
      exact ⟨ds, ms, ys, heq⟩
    · cases h
  obtain ⟨ds, ms, ys, hcs⟩ := h3
  rintro (rfl | hlow)
  · rw [show ("" : String).data = [] from rfl] at hcs
    cases hcs
  · have hmap : v.data.map Char.toLower = (pylower v).data := rfl
    have hnm : sep ∉ v.data := by
      intro hm
      have hmem : Char.toLower sep ∈ v.data.map Char.toLower :=
        List.mem_map_of_mem Char.toLower hm
      rw [hmap] at hmem
      rcases hsep with rfl | rfl <;>
        simp only [List.mem_cons, List.not_mem_nil] at hlow <;>
        rcases hlow with hlow | hlow | hlow <;> first
          | (rw [hlow] at hmem; revert hmem; decide)
          | cases hlow
    rw [csplit1_not_mem sep v.data hnm] at hcs
    cases hcs

lemma dateColumns_inv (table : String) (dc : List (String × String))
    (h : dateColumns table = some dc) :
    (table = "ft_balance_f" ∧ dc = [("on_date", "DD.MM.YYYY")]) ∨
    (table = "ft_posting_f" ∧ dc = [("oper_date", "DD-MM-YYYY")]) := by
  unfold dateColumns at h
  split_ifs at h with h1 h2
  · exact Or.inl ⟨h1, (Option.some.inj h).symm⟩
  · exact Or.inr ⟨h2, (Option.some.inj h).symm⟩

lemma prepare_no_null_dates (table : String) (dc : List (String × String)) (t out : Table)
    (hdc : dateColumns table = some dc) (hok : preparePipeline table t = .ok out) :
    ∀ r ∈ out.rows, ∀ p ∈ dc, ∃ s, getCell out.header r p.1 = some (some s) := by
  have hvl : varcharLimits table = none := by
    rcases dateColumns_inv table dc hdc with ⟨rfl, -⟩ | ⟨rfl, -⟩ <;> rfl
  unfold preparePipeline at hok
  rw [hdc] at hok
  simp only at hok
  split at hok
  case isTrue hall =>
    injection hok with hok
    subst hok
    intro r hr p hp
    have hvs : varcharStep table (t.header.map snake_case)
        ((dateStep dc (t.header.map snake_case) (dedupRows t.rows)).filter
          (dropnaPred dc (t.header.map snake_case))) =
        (dateStep dc (t.header.map snake_case) (dedupRows t.rows)).filter
          (dropnaPred dc (t.header.map snake_case)) := by
      unfold varcharStep
      rw [hvl]
    simp only [hvs] at hr
    have hpred := (List.mem_filter.mp hr).2
    rw [dropnaPred, List.all_eq_true] at hpred
    have := hpred p hp
    simp only [Option.isSome_iff_exists] at this
    obtain ⟨s, hs⟩ := this
    refine ⟨s, ?_⟩
    rcases hc : getCell (t.header.map snake_case) r p.1 with - | c
    · rw [hc] at hs; cases hs
    · rw [hc] at hs
      simp only [Option.getD_some] at hs
      rw [hs]
  case isFalse => cases hok

/-- C3: a date value that is empty, or textually "nan"/"none"
case-insensitively, or that fails to parse under the declared source
format, is mapped to null by `convert_date`; a parsed value is rewritten
to zero-padded year-month-day form; every column declared in a table's
date-format map is also part of that table's write template (so every
declared date column is required, making the non-required case vacuous);
and every row surviving the sanitizer holds a non-null value in each
declared date column — rows with null there are dropped entirely. -/
theorem date_coercion_required_drop :
    (∀ fmt, convert_date "" fmt = none) ∧
    (∀ v fmt, pylower v ∈ ["nan", "none"] → convert_date v fmt = none) ∧
    (∀ v, parseDMY v '.' = none → convert_date v "DD.MM.YYYY" = none) ∧
    (∀ v, parseDMY v '-' = none → convert_date v "DD-MM-YYYY" = none) ∧
    (∀ v d m y, parseDMY v '.' = some (d, m, y) →
      convert_date v "DD.MM.YYYY" = some (isoFormat (d, m, y))) ∧
    (∀ v d m y, parseDMY v '-' = some (d, m, y) →
      convert_date v "DD-MM-YYYY" = some (isoFormat (d, m, y))) ∧
    (∀ table dc p, dateColumns table = some dc → p ∈ dc →
      p.1 ∈ extractCols (insertQuery table)) ∧
    (∀ table dc t out, dateColumns table = some dc → preparePipeline table t = .ok out →
      ∀ r ∈ out.rows, ∀ p ∈ dc, ∃ s, getCell out.header r p.1 = some (some s)) := by
  refine ⟨?_, ?_, ?_, ?_, ?_, ?_, ?_,
    fun table dc t out hdc hok => prepare_no_null_dates table dc t out hdc hok⟩
  · intro fmt
    unfold convert_date
    rw [if_pos (Or.inl rfl)]
  · intro v fmt h
    unfold convert_date
    rw [if_pos (Or.inr h)]
  · intro v h
    unfold convert_date
    split
    · rfl
    · rw [if_pos rfl, h]; rfl
  · intro v h
    unfold convert_date
    split
    · rfl
    · rw [if_neg (by decide), if_pos rfl, h]; rfl
  · intro v d m y h
    unfold convert_date
    rw [if_neg (parse_not_guard v '.' (Or.inl rfl) _ h), if_pos rfl, h]
    rfl
  · intro v d m y h
    unfold convert_date
    rw [if_neg (parse_not_guard v '-' (Or.inr rfl) _ h), if_neg (by decide), if_pos rfl, h]
    rfl
  · intro table dc p hdc hp
    rcases dateColumns_inv table dc hdc with ⟨rfl, rfl⟩ | ⟨rfl, rfl⟩
    · simp only [List.mem_cons, List.not_mem_nil, or_false] at hp
      rw [hp, extractCols_queries.1]
      decide
    · simp only [List.mem_cons, List.not_mem_nil, or_false] at hp
      rw [hp, extractCols_queries.2.1]
      decide

theorem date_coercion_required_drop_witness :
    convert_date "01.03.2021" "DD.MM.YYYY" = some (isoFormat (1, 3, 2021)) ∧
    ∃ s, getCell ["on_date"] [some "2021-03-01"] "on_date" = some (some s) :=
  ⟨date_coercion_required_drop.2.2.2.2.1 "01.03.2021" 1 3 2021 (by decide),
   date_coercion_required_drop.2.2.2.2.2.2.2 "ft_balance_f" [("on_date", "DD.MM.YYYY")]
     ⟨["On_Date"], [[some "01.03.2021"]]⟩ ⟨["on_date"], [[some "2021-03-01"]]⟩
     (by rfl) (by rfl) [some "2021-03-01"] (by decide) ("on_date", "DD.MM.YYYY")
     (by decide)⟩

/-! ## C10 — absent file or empty cleaned frame loads nothing -/

/-- C10: if the table's source file is absent, or the sanitized frame is
empty, `import_table` returns a count of zero and issues no destination
statement at all — in particular no `TRUNCATE` — leaving the destination
contents unchanged. -/
theorem import_skip_no_write (table : String) (reader : String → Option Table) (df : Table)
    (hprep : prepare_dataframe table reader = .ok df) (hempty : df.rows = []) :
    importTable table false reader = .ok (0, []) ∧
    importTable table true reader = .ok (0, []) ∧
    ∀ s, dbApply [] s = s := by
  refine ⟨by simp [importTable], ?_, fun s => rfl⟩
  rw [importTable, if_pos rfl, hprep]
  simp [hempty]

theorem import_skip_no_write_witness :
    importTable "md_account_d" false (fun _ => some ⟨["x"], []⟩) = .ok (0, []) ∧
    importTable "md_account_d" true (fun _ => some ⟨["x"], []⟩) = .ok (0, []) :=
  let h := import_skip_no_write "md_account_d" (fun _ => some ⟨["x"], []⟩)
    ⟨["x"], []⟩ (by rfl) (by rfl)
  ⟨h.1, h.2.1⟩
